import Mathlib

/-!
Shallow embedding of the `webfeed` package (feed normalization engine).

Text and byte contents are modelled as `List Char`.  The external HTML
library (`code.google.com/p/go.net/html`) is abstracted: `html.Parse` and
`html.Render` become an `HtmlLib` oracle, while `html.EscapeString` and the
byte-level marker search (`bytes.Index`) are modelled concretely.  The Go
standard library's `time.Parse` is modelled concretely at the four layouts
the package uses, and the `encoding/xml` attribute-merge behaviour for
repeated elements decoded into a single struct field is modelled for the
Atom `link` elements.
-/

namespace Webfeed

/-- Byte/character sequences (Go `[]byte` / `string`). -/
abbrev Str := List Char

/-! ## html.EscapeString (go.net/html escape.go) -/

/-- Escape a single character as go.net/html's `escape` does. -/
def escChar (c : Char) : Str :=
  if c = '&' then "&amp;".data
  else if c = '\'' then "&#39;".data
  else if c = '<' then "&lt;".data
  else if c = '>' then "&gt;".data
  else if c = '"' then "&#34;".data
  else [c]

/-- Model of `html.EscapeString`: entity-escape the HTML special characters. -/
def escapeString (s : Str) : Str := (s.map escChar).flatten

/-! ## bytes.Index -/

/-- Whether `pat` occurs at the start of `s`. -/
def startsWith (pat s : Str) : Bool := s.take pat.length == pat

/-- Model of `bytes.Index`: index of the first occurrence of `pat` in `s`
(`none` for Go's `-1`). -/
def firstIdx (pat : Str) : Str → Option Nat
  | [] => if startsWith pat [] then some 0 else none
  | c :: rest =>
    if startsWith pat (c :: rest) then some 0
    else (firstIdx pat rest).map (· + 1)

/-! ## The abstracted HTML library -/

/-- Outcome of `html.Render` on a parsed node: a successful serialization,
an error return, a `bytes.ErrTooLarge` panic (buffer growth overflow), or
any other panic value. -/
inductive RenderRes where
  | ok (s : Str)
  | err
  | tooLarge
  | otherPanic
deriving DecidableEq

/-- The external HTML library: `html.Parse` (`none` = parse error) and
`html.Render` over an abstract node type. -/
structure HtmlLib (Node : Type) where
  parse : Str → Option Node
  render : Node → RenderRes

def openBody : Str := "<body>".data
def closeBody : Str := "</body>".data

/-- Translation of `fixHtml` (webfeed.go lines 202-234).  `none` models a propagating
panic (the deferred recover re-raises anything other than
`bytes.ErrTooLarge`). -/
def fixHtml {Node : Type} (L : HtmlLib Node) (wild : Str) : Option Str :=
  match L.parse wild with
  | none => some (escapeString wild)
  | some n =>
    match L.render n with
    | .tooLarge => some (escapeString wild)
    | .otherPanic => none
    | .err => some (escapeString wild)
    | .ok well =>
      match firstIdx openBody well with
      | none => some (escapeString wild)
      | some i =>
        match firstIdx closeBody (well.drop (i + openBody.length)) with
        | none => some (escapeString wild)
        | some j => some ((well.drop (i + openBody.length)).take j)

/-! ## time.Parse, modelled at the four layouts in `rssTimeFormats` -/

/-- A Go `time.Time` as produced by `time.Parse`: wall-clock fields plus
the zone offset in seconds.  The zero value is January 1 of year 1,
00:00:00 UTC. -/
structure GoTime where
  year : Nat
  month : Nat
  day : Nat
  hour : Nat
  minute : Nat
  second : Nat
  offset : Int
deriving DecidableEq

/-- The zero `time.Time`. -/
def GoTime.zero : GoTime := ⟨1, 1, 1, 0, 0, 0, 0⟩

def digitVal (c : Char) : Nat := c.toNat - '0'.toNat

/-- Go `getnum` with `fixed = true`: exactly two digits. -/
def readFixed2 : Str → Option (Nat × Str)
  | a :: b :: rest =>
    if a.isDigit ∧ b.isDigit then some (digitVal a * 10 + digitVal b, rest)
    else none
  | _ => none

/-- Go `getnum` with `fixed = false`: one digit, or two when the second
character is also a digit. -/
def readNum12 : Str → Option (Nat × Str)
  | [] => none
  | [a] => if a.isDigit then some (digitVal a, []) else none
  | a :: b :: rest =>
    if a.isDigit then
      if b.isDigit then some (digitVal a * 10 + digitVal b, rest)
      else some (digitVal a, b :: rest)
    else none

/-- Four-digit year (layout `2006`). -/
def read4 : Str → Option (Nat × Str)
  | a :: b :: c :: d :: rest =>
    if a.isDigit ∧ b.isDigit ∧ c.isDigit ∧ d.isDigit then
      some (digitVal a * 1000 + digitVal b * 100 + digitVal c * 10 + digitVal d, rest)
    else none
  | _ => none

def lowerChar (c : Char) : Char :=
  if 'A' ≤ c ∧ c ≤ 'Z' then Char.ofNat (c.toNat + 32) else c

/-- Go's `match`: ASCII-case-insensitive equality of two strings. -/
def eqFold (a b : Str) : Bool := a.map lowerChar == b.map lowerChar

/-- Go's `lookup`: find the first table name that is a case-insensitive
prefix of `s`; return its index and the rest of `s`. -/
def lookupFrom (i : Nat) : List Str → Str → Option (Nat × Str)
  | [], _ => none
  | n :: ns, s =>
    if eqFold n (s.take n.length) then some (i, s.drop n.length)
    else lookupFrom (i + 1) ns s

def shortDayNames : List Str :=
  ["Sun".data, "Mon".data, "Tue".data, "Wed".data, "Thu".data, "Fri".data, "Sat".data]

def shortMonthNames : List Str :=
  ["Jan".data, "Feb".data, "Mar".data, "Apr".data, "May".data, "Jun".data,
   "Jul".data, "Aug".data, "Sep".data, "Oct".data, "Nov".data, "Dec".data]

def longMonthNames : List Str :=
  ["January".data, "February".data, "March".data, "April".data, "May".data,
   "June".data, "July".data, "August".data, "September".data, "October".data,
   "November".data, "December".data]

def dropSpaces (s : Str) : Str := s.dropWhile (· = ' ')

/-- Go's `skip`: match a layout literal against the input, where a space
in the layout requires at least one space in the input and then consumes a
run of spaces in the input.  (Go also collapses space runs on the layout
side; the four layouts used here have no consecutive spaces, so that case
never arises. Go additionally lets a layout space match an exhausted
input, which for these layouts fails on the next layout token anyway.) -/
def skipLit : Str → Str → Option Str
  | [], v => some v
  | p :: ps, v =>
    if p = ' ' then
      match v with
      | ' ' :: vs => skipLit ps (dropSpaces vs)
      | _ => none
    else
      match v with
      | q :: vs => if q = p then skipLit ps vs else none
      | [] => none

/-- Numeric zone `-0700`: a sign and four digits; offset in seconds. -/
def readNumOff : Str → Option (Int × Str)
  | c :: rest =>
    if c = '+' ∨ c = '-' then
      match readFixed2 rest with
      | none => none
      | some (h, rest') =>
        match readFixed2 rest' with
        | none => none
        | some (m, rest'') =>
          let mag : Int := ((h * 60 + m) * 60 : Nat)
          some (if c = '-' then -mag else mag, rest'')
    else none
  | [] => none

def isUpper (c : Char) : Bool := 'A' ≤ c ∧ c ≤ 'Z'

/-- Go's `parseTimeZone`: a zone abbreviation is `ChST`/`MeST`, `GMT`, or
a run of three to five upper-case letters (four or five only in `...T`
forms, plus `WITA`).  The GMT signed-offset suffix and bare signed zones
are not modelled. -/
def readZoneName (s : Str) : Option (Str × Str) :=
  if s.take 4 == "ChST".data ∨ s.take 4 == "MeST".data then some (s.take 4, s.drop 4)
  else if s.take 3 == "GMT".data then some (s.take 3, s.drop 3)
  else
    match ((s.take 6).takeWhile isUpper).length with
    | 3 => some (s.take 3, s.drop 3)
    | 4 =>
      if s.get? 3 = some 'T' ∨ s.take 4 == "WITA".data then some (s.take 4, s.drop 4)
      else none
    | 5 => if s.get? 4 = some 'T' then some (s.take 5, s.drop 5) else none
    | _ => none

def isLeap (y : Nat) : Bool := y % 4 = 0 ∧ (y % 100 ≠ 0 ∨ y % 400 = 0)

/-- Days in a month, as Go's `daysIn`. -/
def daysIn (m y : Nat) : Nat :=
  if m = 2 then (if isLeap y then 29 else 28)
  else if m = 4 ∨ m = 6 ∨ m = 9 ∨ m = 11 then 30
  else 31

/-- The range checks `time.Parse` performs before building the result. -/
def mkTime (y m d h mi sec : Nat) (off : Int) : Option GoTime :=
  if 1 ≤ d ∧ d ≤ daysIn m y ∧ h ≤ 23 ∧ mi ≤ 59 ∧ sec ≤ 59 then
    some ⟨y, m, d, h, mi, sec, off⟩
  else none

/-- Model of `time.Parse` at layout `"Mon, 2 Jan 2006 15:04:05 -0700"`. -/
def parseRfc1123Num (s : Str) : Option GoTime := do
  let (_, s) ← lookupFrom 0 shortDayNames s
  let s ← skipLit ", ".data s
  let (d, s) ← readNum12 s
  let s ← skipLit " ".data s
  let (m0, s) ← lookupFrom 0 shortMonthNames s
  let s ← skipLit " ".data s
  let (y, s) ← read4 s
  let s ← skipLit " ".data s
  let (h, s) ← readNum12 s
  let s ← skipLit ":".data s
  let (mi, s) ← readFixed2 s
  let s ← skipLit ":".data s
  let (sec, s) ← readFixed2 s
  let s ← skipLit " ".data s
  let (off, s) ← readNumOff s
  if s = [] then mkTime y (m0 + 1) d h mi sec off else none

/-- Model of `time.Parse` at layout `"Mon, 2 Jan 2006 15:04:05 MST"`.  Under a
UTC local zone an unrecognized abbreviation yields a fabricated zone with
offset zero. -/
def parseRfc1123Name (s : Str) : Option GoTime := do
  let (_, s) ← lookupFrom 0 shortDayNames s
  let s ← skipLit ", ".data s
  let (d, s) ← readNum12 s
  let s ← skipLit " ".data s
  let (m0, s) ← lookupFrom 0 shortMonthNames s
  let s ← skipLit " ".data s
  let (y, s) ← read4 s
  let s ← skipLit " ".data s
  let (h, s) ← readNum12 s
  let s ← skipLit ":".data s
  let (mi, s) ← readFixed2 s
  let s ← skipLit ":".data s
  let (sec, s) ← readFixed2 s
  let s ← skipLit " ".data s
  let (_, s) ← readZoneName s
  if s = [] then mkTime y (m0 + 1) d h mi sec 0 else none

/-- Two-digit year mapping: `69..99` → 19xx, `00..68` → 20xx. -/
def fixYear2 (yy : Nat) : Nat := if 69 ≤ yy then 1900 + yy else 2000 + yy

/-- Model of `time.Parse` at layout `"Mon, 2 Jan 06 15:04:05 -0700"`. -/
def parseRfc822Num (s : Str) : Option GoTime := do
  let (_, s) ← lookupFrom 0 shortDayNames s
  let s ← skipLit ", ".data s
  let (d, s) ← readNum12 s
  let s ← skipLit " ".data s
  let (m0, s) ← lookupFrom 0 shortMonthNames s
  let s ← skipLit " ".data s
  let (yy, s) ← readFixed2 s
  let s ← skipLit " ".data s
  let (h, s) ← readNum12 s
  let s ← skipLit ":".data s
  let (mi, s) ← readFixed2 s
  let s ← skipLit ":".data s
  let (sec, s) ← readFixed2 s
  let s ← skipLit " ".data s
  let (off, s) ← readNumOff s
  if s = [] then mkTime (fixYear2 yy) (m0 + 1) d h mi sec off else none

/-- Model of `time.Parse` at layout `"02 January 2006"`. -/
def parseDayMonthYear (s : Str) : Option GoTime := do
  let (d, s) ← readFixed2 s
  let s ← skipLit " ".data s
  let (m0, s) ← lookupFrom 0 longMonthNames s
  let s ← skipLit " ".data s
  let (y, s) ← read4 s
  if s = [] then mkTime y (m0 + 1) d 0 0 0 0 else none

def fmt1 : Str := "Mon, 2 Jan 2006 15:04:05 -0700".data
def fmt2 : Str := "Mon, 2 Jan 2006 15:04:05 MST".data
def fmt3 : Str := "Mon, 2 Jan 06 15:04:05 -0700".data
def fmt4 : Str := "02 January 2006".data

/-- Model of `time.Parse`, restricted to the four layouts the package uses. -/
def timeParse (layout s : Str) : Option GoTime :=
  if layout = fmt1 then parseRfc1123Num s
  else if layout = fmt2 then parseRfc1123Name s
  else if layout = fmt3 then parseRfc822Num s
  else if layout = fmt4 then parseDayMonthYear s
  else none

/-- Translation of `rssTimeFormats` (webfeed.go lines 78-83). -/
def rssTimeFormats : List Str := [fmt1, fmt2, fmt3, fmt4]

/-- The loop body of `rssTime`: try each format, returning the first
successful parse. -/
def tryFormats : List Str → Str → Option GoTime
  | [], _ => none
  | f :: fs, s =>
    match timeParse f s with
    | some t => some t
    | none => tryFormats fs s

/-- Translation of `rssTime` (webfeed.go lines 87-99).  The second component is the
`ErrBadTime` payload (`none` = nil error). -/
def rssTime (s : Str) : GoTime × Option Str :=
  if s = [] then (GoTime.zero, none)
  else
    match tryFormats rssTimeFormats s with
    | some t => (t, none)
    | none => (GoTime.zero, some s)

/-! ## The data model -/

/-- Translation of `atomLink` (webfeed.go lines 155-158). -/
structure atomLink where
  Rel : Str
  Href : Str
deriving DecidableEq

/-- Translation of `atomContent` (webfeed.go lines 160-163); `Typ` is the source's `Type`
attribute field. -/
structure atomContent where
  Typ : Str
  Contents : Str
deriving DecidableEq

/-- Translation of `atomContent.Data` (webfeed.go lines 165-171), parameterized by the
external `html.UnescapeString` function `u`. -/
def atomContent.Data (u : Str → Str) (c : atomContent) : Str :=
  if c.Typ ≠ "xhtml".data then u c.Contents else c.Contents

/-- Translation of `atomEntry` (webfeed.go lines 145-153). -/
structure atomEntry where
  Title : Str
  Link : atomLink
  Id : Str
  Updated : GoTime
  Author : List Str
  Summary : Str
  Content : List atomContent
deriving DecidableEq

/-- Translation of `rssContent` (webfeed.go lines 196-198). -/
structure rssContent where
  Data : Str
deriving DecidableEq

/-- Translation of `rssItem` (webfeed.go lines 186-194). -/
structure rssItem where
  Title : Str
  Link : Str
  Description : Str
  Content : rssContent
  Updated : Str
deriving DecidableEq

/-- Translation of `rss` (webfeed.go lines 173-184). -/
structure rss where
  Title : Str
  Link : Str
  Description : Str
  Items : List rssItem
  Updated : Str
deriving DecidableEq

/-- The intermediate decode record `feed` (webfeed.go lines 126-134). -/
structure feed where
  Title : Str
  Links : List atomLink
  Updated : GoTime
  Author : List Str
  Id : Str
  Entries : List atomEntry
  Rss : rss
deriving DecidableEq

/-- The loop of `feed.link` (webfeed.go lines 136-143). -/
def linkSel : List atomLink → Str
  | [] => []
  | l :: ls =>
    if l.Rel = [] ∨ l.Rel = "alternate".data then l.Href else linkSel ls

/-- Translation of the method `feed.link`. -/
def feed.link (f : feed) : Str := linkSel f.Links

/-- The exported `Entry` (webfeed.go lines 19-27). -/
structure Entry where
  Title : Str
  Link : Str
  Summary : Str
  Content : Str
  When : GoTime
deriving DecidableEq

/-- The exported `Feed` (webfeed.go lines 12-17). -/
structure Feed where
  Title : Str
  Link : Str
  Updated : GoTime
  Entries : List Entry
deriving DecidableEq

/-- The zero `Feed`. -/
def Feed.zero : Feed := ⟨[], [], GoTime.zero, []⟩

/-! ## The transforms

`fixHtml` may propagate a panic (modelled as `none`), so the transforms
live in `Option`: `none` means the decode call panics and returns no
result at all. -/

/-- Go's `if err == nil && e != nil { err = e }`: keep the first
non-nil error. -/
def accErr (err e : Option Str) : Option Str :=
  match err with
  | none => e
  | some e0 => some e0

/-- The body of `rssFeed`'s loop for one item (webfeed.go lines 60-73),
plus the first-error accumulation threaded through `err`. -/
def rssLoop {Node : Type} (L : HtmlLib Node) :
    Option Str → List rssItem → Option (List Entry × Option Str)
  | err, [] => some ([], err)
  | err, it :: items => do
    let tw := rssTime it.Updated
    let err2 := accErr err tw.2
    let s ← fixHtml L it.Description
    let c ← fixHtml L it.Content.Data
    let tail ← rssLoop L err2 items
    some (⟨it.Title, it.Link, s, c, tw.1⟩ :: tail.1, tail.2)

/-- Translation of `rssFeed` (webfeed.go lines 52-75).  The error component is the
`ErrBadTime` payload. -/
def rssFeed {Node : Type} (L : HtmlLib Node) (r : rss) :
    Option (Feed × Option Str) := do
  let tw := rssTime r.Updated
  let res ← rssLoop L tw.2 r.Items
  some (⟨r.Title, r.Link, tw.1, res.1⟩, res.2)

/-- The body of `atomFeed`'s loop for one entry (webfeed.go lines
108-118), parameterized by the abstract HTML library and
`html.UnescapeString`. -/
def entryContent {Node : Type} (L : HtmlLib Node) (u : Str → Str) :
    List atomContent → Option Str
  | [] => some []
  | c :: _ => fixHtml L (atomContent.Data u c)

def atomEntryT {Node : Type} (L : HtmlLib Node) (u : Str → Str)
    (a : atomEntry) : Option Entry := do
  let summ ← fixHtml L a.Summary
  let content ← entryContent L u a.Content
  some ⟨a.Title, a.Link.Href, summ, content, a.Updated⟩

/-- Translation of `atomFeed` (webfeed.go lines 101-121); it returns a nil error, so the
result carries no error component. -/
def atomFeed {Node : Type} (L : HtmlLib Node) (u : Str → Str)
    (a : feed) : Option Feed := do
  let es ← a.Entries.mapM (atomEntryT L u)
  some ⟨a.Title, a.link, a.Updated, es⟩

/-- The errors `Read` can return: a fatal XML syntax error from the
structural decode, or the non-fatal `ErrBadTime` advisory. -/
inductive ReadErr where
  | xmlSyntax (msg : Str)
  | badTime (s : Str)
deriving DecidableEq

/-- Translation of `Read` (webfeed.go lines 34-43), starting from the outcome of the
structural XML decode (`Except.error` = fatal XML syntax error). -/
def Read {Node : Type} (L : HtmlLib Node) (u : Str → Str)
    (d : Except Str feed) : Option (Feed × Option ReadErr) :=
  match d with
  | .error e => some (Feed.zero, some (.xmlSyntax e))
  | .ok f =>
    if f.Rss.Title ≠ [] then
      (rssFeed L f.Rss).map (fun p => (p.1, p.2.map ReadErr.badTime))
    else
      (atomFeed L u f).map (fun F => (F, none))

/-! ## encoding/xml decode of repeated Atom `link` elements

`feed.Links` is a slice field, so every `link` element is decoded in
document order into a fresh zero `atomLink`.  `atomEntry.Link` is a single
struct field: `encoding/xml` unmarshals every matching element into the
same value without zeroing it, so each element overwrites exactly the
attributes it carries. -/

/-- A `link` element as it appears in the document: each attribute may be
absent. -/
structure atomLinkElem where
  relA : Option Str
  hrefA : Option Str
deriving DecidableEq

/-- Decode of one `link` element into a fresh `atomLink` (slice case). -/
def decodeAtomLink (e : atomLinkElem) : atomLink :=
  ⟨e.relA.getD [], e.hrefA.getD []⟩

/-- One unmarshal step into an existing `atomLink`: attributes present in
the element overwrite, absent attributes keep the old value. -/
def mergeLinkAttrs (acc : atomLink) (e : atomLinkElem) : atomLink :=
  ⟨e.relA.getD acc.Rel, e.hrefA.getD acc.Href⟩

/-- Decode of repeated `link` elements into `atomEntry.Link` (single
struct field case). -/
def decodeEntryLink (ls : List atomLinkElem) : atomLink :=
  ls.foldl mergeLinkAttrs ⟨[], []⟩

/-! ## Concrete instances used to witness the theorems -/

/-- A benign HTML library: parsing always succeeds and rendering always
produces an empty body. -/
def trivLib : HtmlLib Unit :=
  ⟨fun _ => some (), fun _ => RenderRes.ok "<body></body>".data⟩

/-- An RSS record whose feed-level and item-level timestamps are both
unparsable. -/
def exRss : rss :=
  ⟨"t".data, "l".data, "d".data,
   [⟨"it".data, "il".data, "de".data, ⟨"co".data⟩, "bad1".data⟩],
   "bad0".data⟩

/-- The result of `rssFeed trivLib exRss`. -/
def exRssOut : Feed × Option Str :=
  (⟨"t".data, "l".data, GoTime.zero,
    [⟨"it".data, "il".data, [], [], GoTime.zero⟩]⟩, some "bad0".data)

/-- An RSS record with fully parsable timestamps. -/
def exGoodRss : rss :=
  ⟨"t".data, "l".data, "d".data,
   [⟨"it".data, "il".data, "de".data, ⟨"co".data⟩, "02 January 2006".data⟩],
   "Mon, 2 Jan 2006 15:04:05 -0700".data⟩

/-- An intermediate record holding `exGoodRss`. -/
def exGoodFeedRec : feed :=
  ⟨[], [], GoTime.zero, [], [], [], exGoodRss⟩

/-- The result of decoding `exGoodFeedRec`. -/
def exGoodOut : Feed × Option ReadErr :=
  (⟨"t".data, "l".data, ⟨2006, 1, 2, 15, 4, 5, -25200⟩,
    [⟨"it".data, "il".data, [], [], ⟨2006, 1, 2, 0, 0, 0, 0⟩⟩]⟩, none)

/-- The fatal-error decode outcome. -/
def exErrOut : Feed × Option ReadErr :=
  (Feed.zero, some (ReadErr.xmlSyntax "x".data))

def docPre : Str := "<html><head></head>".data
def docPost : Str := "</html>".data

/-- The serialization the HTML library produces for a well-formed
fragment: the fragment wrapped in a full document. -/
def wrapDoc (frag : Str) : Str :=
  docPre ++ openBody ++ frag ++ closeBody ++ docPost

def pHello : Str := "<p>hello</p>".data

/-- A library that parses and round-trips `pHello` as the real one
does. -/
def helloLib : HtmlLib Unit :=
  ⟨fun _ => some (), fun _ => RenderRes.ok (wrapDoc pHello)⟩

/-- Two entry-level link elements: first with no `rel` attribute, then a
`rel="self"` one. -/
def exLinks : List atomLinkElem :=
  [⟨none, some "B".data⟩, ⟨some "self".data, some "A".data⟩]

/-- An Atom record with a `rel="self"` link before an unrelated link. -/
def exAtomFeedRec : feed :=
  ⟨"at".data, [⟨"self".data, "S".data⟩, ⟨[], "C".data⟩], GoTime.zero,
   [], [], [], ⟨[], [], [], [], []⟩⟩

def exC : atomContent := ⟨"html".data, "cc".data⟩

/-- An Atom entry with two content elements, the first non-xhtml. -/
def exAtomEntry : atomEntry :=
  ⟨"et".data, ⟨[], "eh".data⟩, "id".data, GoTime.zero, [], "sum".data,
   [exC, ⟨"xhtml".data, "dd".data⟩]⟩

def exE : Entry := ⟨"et".data, "eh".data, [], [], GoTime.zero⟩

/-- An Atom document (empty RSS channel title) with one entry. -/
def exAtomDoc : feed :=
  ⟨"at".data, [⟨[], "C".data⟩], GoTime.zero, [], [],
   [⟨"et".data, ⟨[], "eh".data⟩, "id".data, GoTime.zero, [], "sum".data, []⟩],
   ⟨[], [], [], [], []⟩⟩

/-- The result of decoding `exAtomDoc`. -/
def exAtomOut : Feed × Option ReadErr :=
  (⟨"at".data, "C".data, GoTime.zero,
    [⟨"et".data, "eh".data, [], [], GoTime.zero⟩]⟩, none)

/-! ## Specification-side definitions -/

/-- Spec-side reference for timestamp resolution: empty resolves to the
zero instant; otherwise the four patterns are tried in order and the first
match wins; otherwise the zero instant with the offending string. -/
def rssTimeRef (s : Str) : GoTime × Option Str :=
  if s = [] then (GoTime.zero, none)
  else
    match timeParse fmt1 s with
    | some t => (t, none)
    | none =>
      match timeParse fmt2 s with
      | some t => (t, none)
      | none =>
        match timeParse fmt3 s with
        | some t => (t, none)
        | none =>
          match timeParse fmt4 s with
          | some t => (t, none)
          | none => (GoTime.zero, some s)

/-- Spec-side canonical Atom link: the first link whose relation is unset
or `alternate`. -/
def canonicalLink : List atomLink → Str
  | [] => []
  | l :: ls =>
    if l.Rel = [] ∨ l.Rel = "alternate".data then l.Href else canonicalLink ls

/-- The href attribute of the last link element that carries one. -/
def lastHref (ls : List atomLinkElem) : Str :=
  (ls.reverse.findSome? (·.hrefA)).getD []

/-- The first `ErrBadTime` failure among a list of date strings, in
order. -/
def firstBad (ss : List Str) : Option Str :=
  ss.findSome? (fun s => (rssTime s).2)

/-- The produced `Entry` is the full transform of the RSS item: title and
link copied, summary and content repaired, timestamp the parse result
(zero when unparsable). -/
def EntryOfItem {Node : Type} (L : HtmlLib Node) (it : rssItem) (e : Entry) : Prop :=
  e.Title = it.Title ∧ e.Link = it.Link ∧
  fixHtml L it.Description = some e.Summary ∧
  fixHtml L it.Content.Data = some e.Content ∧
  e.When = (rssTime it.Updated).1

/-- The produced `Entry` is the full transform of the Atom entry. -/
def EntryOfAtom {Node : Type} (L : HtmlLib Node) (u : Str → Str)
    (a : atomEntry) (e : Entry) : Prop :=
  e.Title = a.Title ∧ e.Link = a.Link.Href ∧
  fixHtml L a.Summary = some e.Summary ∧ e.When = a.Updated ∧
  (match a.Content with
   | [] => e.Content = []
   | c :: _ => fixHtml L (atomContent.Data u c) = some e.Content)

/-- Statement that `F` is the fully populated transform of the RSS record `r`: every
item yields its entry, in document order, with all fields present. -/
def RssComplete {Node : Type} (L : HtmlLib Node) (r : rss) (F : Feed) : Prop :=
  F.Title = r.Title ∧ F.Link = r.Link ∧ F.Updated = (rssTime r.Updated).1 ∧
  List.Forall₂ (EntryOfItem L) r.Items F.Entries

/-- Statement that `well` splits as `pre ++ "<body>" ++ frag ++ "</body>" ++ post` where
the shown `"<body>"` is its first occurrence and the shown `"</body>"` is
the first occurrence after it: `frag` is exactly the content strictly
between the two markers. -/
def BodySplit (well pre frag post : Str) : Prop :=
  well = pre ++ openBody ++ frag ++ closeBody ++ post ∧
  (∀ j, j < pre.length → startsWith openBody (well.drop j) = false) ∧
  (∀ j, j < frag.length →
    startsWith closeBody ((frag ++ closeBody ++ post).drop j) = false)

/-! ## Helper lemmas -/

lemma firstIdx_some (pat : Str) :
    ∀ (s : Str) (i : Nat), firstIdx pat s = some i →
      startsWith pat (s.drop i) = true ∧
      ∀ j, j < i → startsWith pat (s.drop j) = false := by
  intro s
  induction s with
  | nil =>
    intro i h
    simp only [firstIdx] at h
    split at h
    · rename_i hs
      cases h
      exact ⟨hs, by omega⟩
    · cases h
  | cons c rest ih =>
    intro i h
    simp only [firstIdx] at h
    split at h
    · rename_i hs
      cases h
      exact ⟨hs, by omega⟩
    · rename_i hs
      cases hrec : firstIdx pat rest with
      | none => rw [hrec] at h; cases h
      | some i' =>
        rw [hrec] at h
        simp only [Option.map_some'] at h
        cases h
        obtain ⟨h1, h2⟩ := ih i' hrec
        refine ⟨h1, ?_⟩
        intro j hj
        cases j with
        | zero => simpa using Bool.eq_false_iff.mpr hs
        | succ j' =>
          have := h2 j' (by omega)
          simpa using this

lemma firstIdx_of (pat : Str) :
    ∀ (s : Str) (i : Nat),
      startsWith pat (s.drop i) = true →
      (∀ j, j < i → startsWith pat (s.drop j) = false) →
      firstIdx pat s = some i := by
  intro s
  induction s with
  | nil =>
    intro i h1 h2
    have hi : i = 0 := by
      by_contra hne
      have := h2 0 (by omega)
      simp only [List.drop_nil] at h1 this
      rw [h1] at this
      cases this
    subst hi
    simp only [List.drop_nil] at h1
    simp [firstIdx, h1]
  | cons c rest ih =>
    intro i h1 h2
    cases i with
    | zero =>
      simp only [List.drop_zero] at h1
      simp [firstIdx, h1]
    | succ i' =>
      have h0 : startsWith pat (c :: rest) = false := by
        have := h2 0 (by omega)
        simpa using this
      simp only [firstIdx, h0, Bool.false_eq_true, if_false]
      have hrec : firstIdx pat rest = some i' := by
        apply ih
        · simpa using h1
        · intro j hj
          have := h2 (j + 1) (by omega)
          simpa using this
      rw [hrec]
      rfl

lemma startsWith_append (pat t : Str) : startsWith pat (pat ++ t) = true := by
  simp [startsWith, List.take_left]

lemma fixHtml_of_split {Node : Type} (L : HtmlLib Node) (wild : Str) (n : Node)
    (well pre frag post : Str)
    (hp : L.parse wild = some n) (hr : L.render n = .ok well)
    (hs : BodySplit well pre frag post) :
    fixHtml L wild = some frag := by
  obtain ⟨heq, hopen, hclose⟩ := hs
  have hOB : openBody.length = 6 := by decide
  have hdropPre : well.drop pre.length = openBody ++ (frag ++ closeBody ++ post) := by
    rw [heq]
    have : pre ++ openBody ++ frag ++ closeBody ++ post
        = pre ++ (openBody ++ (frag ++ closeBody ++ post)) := by
      simp [List.append_assoc]
    rw [this, List.drop_left]
  have h1 : firstIdx openBody well = some pre.length := by
    apply firstIdx_of
    · rw [hdropPre]; exact startsWith_append _ _
    · exact hopen
  have hdropAll : well.drop (pre.length + openBody.length)
      = frag ++ closeBody ++ post := by
    have : well = (pre ++ openBody) ++ (frag ++ closeBody ++ post) := by
      rw [heq]; simp [List.append_assoc]
    rw [this]
    have hlen : pre.length + openBody.length = (pre ++ openBody).length := by
      simp
    rw [hlen, List.drop_left]
  have hdropFrag : (frag ++ closeBody ++ post).drop frag.length
      = closeBody ++ post := by
    have : frag ++ closeBody ++ post = frag ++ (closeBody ++ post) := by
      simp [List.append_assoc]
    rw [this, List.drop_left]
  have h2 : firstIdx closeBody ((frag ++ closeBody ++ post)) = some frag.length := by
    apply firstIdx_of
    · rw [hdropFrag]; exact startsWith_append _ _
    · exact hclose
  have htake : (frag ++ closeBody ++ post).take frag.length = frag := by
    have : frag ++ closeBody ++ post = frag ++ (closeBody ++ post) := by
      simp [List.append_assoc]
    rw [this, List.take_left]
  simp only [fixHtml, hp, hr, h1, hdropAll, h2, htake]

lemma findSome?_cons {α β : Type} (f : α → Option β) (a : α) (l : List α) :
    (a :: l).findSome? f = match f a with
      | some b => some b
      | none => l.findSome? f := rfl

lemma findSome?_map {α β γ : Type} (g : α → β) (f : β → Option γ) :
    ∀ (l : List α), (l.map g).findSome? f = l.findSome? (fun a => f (g a)) := by
  intro l
  induction l with
  | nil => rfl
  | cons a l ih =>
    simp only [List.map_cons, findSome?_cons, ih]

lemma findSome?_append_one {α β : Type} (f : α → Option β) (e : α) :
    ∀ (l : List α), ((l ++ [e]).findSome? f)
      = ((l.findSome? f).elim (f e) some) := by
  intro l
  induction l with
  | nil => cases h : f e <;> simp [List.findSome?, h]
  | cons a l ih =>
    simp only [List.cons_append, findSome?_cons, ih]
    cases h : f a <;> simp

lemma foldl_merge_href (ls : List atomLinkElem) :
    ∀ (acc : atomLink),
      (ls.foldl mergeLinkAttrs acc).Href
        = (ls.reverse.findSome? (·.hrefA)).getD acc.Href := by
  induction ls with
  | nil => intro acc; simp [List.findSome?]
  | cons e ls ih =>
    intro acc
    simp only [List.foldl_cons, List.reverse_cons]
    rw [ih, findSome?_append_one]
    cases h : ls.reverse.findSome? (·.hrefA) with
    | none =>
      simp only [Option.elim]
      cases he : e.hrefA <;> simp [mergeLinkAttrs, he]
    | some v => simp

lemma rssTime_fail_zero (s : Str) (h : (rssTime s).2 ≠ none) :
    (rssTime s).1 = GoTime.zero := by
  by_cases hse : s = []
  · subst hse; simp [rssTime] at h
  · unfold rssTime at h ⊢
    rw [if_neg hse] at h ⊢
    cases ht : tryFormats rssTimeFormats s with
    | some t => rw [ht] at h; simp at h
    | none => rfl

lemma accErr_assoc (a b c : Option Str) :
    accErr (accErr a b) c = accErr a (accErr b c) := by
  cases a <;> cases b <;> rfl

lemma findSome?_cons_accErr {α : Type} (f : α → Option Str) (a : α)
    (l : List α) :
    (a :: l).findSome? f = accErr (f a) (l.findSome? f) := by
  rw [findSome?_cons]
  cases h : f a <;> rfl

lemma rssLoop_spec {Node : Type} (L : HtmlLib Node) :
    ∀ (items : List rssItem) (err0 : Option Str) (res : List Entry × Option Str),
      rssLoop L err0 items = some res →
      res.2 = accErr err0 (items.findSome? (fun it => (rssTime it.Updated).2)) ∧
      List.Forall₂ (EntryOfItem L) items res.1 := by
  intro items
  induction items with
  | nil =>
    intro err0 res h
    simp only [rssLoop] at h
    cases h
    constructor
    · cases err0 <;> simp [List.findSome?, accErr]
    · exact List.Forall₂.nil
  | cons it items ih =>
    intro err0 res h
    simp only [rssLoop, bind, Option.bind] at h
    cases hs : fixHtml L it.Description with
    | none => rw [hs] at h; cases h
    | some s =>
      rw [hs] at h
      cases hc : fixHtml L it.Content.Data with
      | none => rw [hc] at h; cases h
      | some c =>
        rw [hc] at h
        cases htail : rssLoop L (accErr err0 (rssTime it.Updated).2) items with
        | none => rw [htail] at h; cases h
        | some tail =>
          rw [htail] at h
          simp only [Option.some.injEq] at h
          subst h
          obtain ⟨h1, h2⟩ := ih _ tail htail
          constructor
          · rw [h1, findSome?_cons_accErr, accErr_assoc]
          · exact List.Forall₂.cons ⟨rfl, rfl, hs, hc, rfl⟩ h2

lemma rssFeed_spec {Node : Type} (L : HtmlLib Node) (r : rss)
    (out : Feed × Option Str) (h : rssFeed L r = some out) :
    out.2 = firstBad (r.Updated :: r.Items.map rssItem.Updated) ∧
    RssComplete L r out.1 := by
  simp only [rssFeed, bind, Option.bind] at h
  cases hloop : rssLoop L (rssTime r.Updated).2 r.Items with
  | none => rw [hloop] at h; cases h
  | some res =>
    rw [hloop] at h
    simp only [Option.some.injEq] at h
    subst h
    obtain ⟨h1, h2⟩ := rssLoop_spec L r.Items _ res hloop
    constructor
    · rw [h1, firstBad, findSome?_cons_accErr, findSome?_map]
    · exact ⟨rfl, rfl, rfl, h2⟩

lemma mapM_forall₂ {α β : Type} (f : α → Option β) (P : α → β → Prop)
    (hf : ∀ a b, f a = some b → P a b) :
    ∀ (l : List α) (es : List β), l.mapM f = some es → List.Forall₂ P l es := by
  intro l
  induction l with
  | nil =>
    intro es h
    simp only [List.mapM_nil, pure, Option.some.injEq] at h
    subst h
    exact List.Forall₂.nil
  | cons a l ih =>
    intro es h
    rw [List.mapM_cons] at h
    simp only [bind, Option.bind, pure] at h
    cases ha : f a with
    | none => rw [ha] at h; cases h
    | some b =>
      rw [ha] at h
      cases hl : l.mapM f with
      | none => rw [hl] at h; cases h
      | some bs =>
        rw [hl] at h
        simp only [Option.some.injEq] at h
        subst h
        exact List.Forall₂.cons (hf a b ha) (ih bs hl)

lemma atomEntryT_spec {Node : Type} (L : HtmlLib Node) (u : Str → Str)
    (a : atomEntry) (e : Entry) (h : atomEntryT L u a = some e) :
    EntryOfAtom L u a e := by
  simp only [atomEntryT, bind, Option.bind] at h
  cases hs : fixHtml L a.Summary with
  | none => rw [hs] at h; cases h
  | some summ =>
    rw [hs] at h
    cases hc : entryContent L u a.Content with
    | none => rw [hc] at h; cases h
    | some cont =>
      rw [hc] at h
      simp only [Option.some.injEq] at h
      subst h
      refine ⟨rfl, rfl, hs, rfl, ?_⟩
      cases hac : a.Content with
      | nil =>
        rw [hac] at hc
        simp only [entryContent, Option.some.injEq] at hc
        simp [hc.symm]
      | cons c cs =>
        rw [hac] at hc
        simpa only [entryContent] using hc

lemma atomFeed_spec {Node : Type} (L : HtmlLib Node) (u : Str → Str)
    (a : feed) (F : Feed) (h : atomFeed L u a = some F) :
    F.Title = a.Title ∧ F.Link = linkSel a.Links ∧ F.Updated = a.Updated ∧
    List.Forall₂ (EntryOfAtom L u) a.Entries F.Entries := by
  simp only [atomFeed, bind, Option.bind] at h
  cases hm : a.Entries.mapM (atomEntryT L u) with
  | none => rw [hm] at h; cases h
  | some es =>
    rw [hm] at h
    simp only [Option.some.injEq] at h
    subst h
    exact ⟨rfl, rfl, rfl,
      mapM_forall₂ _ _ (atomEntryT_spec L u) a.Entries es hm⟩

lemma linkSel_eq_canonical : ∀ ls : List atomLink, linkSel ls = canonicalLink ls := by
  intro ls
  induction ls with
  | nil => rfl
  | cons l ls ih =>
    simp only [linkSel, canonicalLink]
    rw [ih]

lemma findSome?_eq_none_of {α β : Type} (f : α → Option β) :
    ∀ (l : List α), (∀ a ∈ l, f a = none) → l.findSome? f = none := by
  intro l
  induction l with
  | nil => intro _; rfl
  | cons a l ih =>
    intro h
    rw [findSome?_cons, h a (List.mem_cons_self a l)]
    exact ih (fun x hx => h x (List.mem_cons_of_mem a hx))

lemma tryFormats_eq_none_of (s : Str) :
    ∀ (fs : List Str), (∀ f ∈ fs, timeParse f s = none) → tryFormats fs s = none := by
  intro fs
  induction fs with
  | nil => intro _; rfl
  | cons f fs ih =>
    intro h
    simp only [tryFormats]
    rw [h f (List.mem_cons_self f fs)]
    exact ih (fun g hg => h g (List.mem_cons_of_mem f hg))

lemma data_eq_if (u : Str → Str) (c : atomContent) :
    atomContent.Data u c
      = if c.Typ = "xhtml".data then c.Contents else u c.Contents := by
  by_cases h : c.Typ = "xhtml".data <;> simp [atomContent.Data, h]

lemma fixHtml_ok_ne_none {Node : Type} (L : HtmlLib Node) (wild : Str)
    (n : Node) (well : Str) (hp : L.parse wild = some n)
    (hr : L.render n = RenderRes.ok well) : fixHtml L wild ≠ none := by
  simp only [fixHtml, hp, hr]
  split
  · simp
  · split
    · simp
    · simp

/-! ## The claims -/

/-- C1: the decode entry point returns either a nil error, or a fatal XML
syntax error with the zero `Feed`, or the non-fatal `ErrBadTime` advisory
alongside a fully populated `Feed` (all titles, links, summaries and
contents present, every parsable timestamp set). -/
theorem read_error_cases {Node : Type} (L : HtmlLib Node) (u : Str → Str)
    (d : Except Str feed) (out : Feed × Option ReadErr)
    (h : Read L u d = some out) :
    out.2 = none ∨
    (∃ e, out.2 = some (ReadErr.xmlSyntax e) ∧ out.1 = Feed.zero) ∨
    (∃ s f, d = Except.ok f ∧ out.2 = some (ReadErr.badTime s) ∧
      RssComplete L f.Rss out.1) := by
  cases d with
  | error e =>
    simp only [Read, Option.some.injEq] at h
    subst h
    exact Or.inr (Or.inl ⟨e, rfl, rfl⟩)
  | ok f =>
    simp only [Read] at h
    by_cases ht : f.Rss.Title = []
    · rw [if_neg (not_not_intro ht)] at h
      cases ha : atomFeed L u f with
      | none => rw [ha] at h; cases h
      | some F =>
        rw [ha] at h
        simp only [Option.map_some', Option.some.injEq] at h
        subst h
        exact Or.inl rfl
    · rw [if_pos ht] at h
      cases hr : rssFeed L f.Rss with
      | none => rw [hr] at h; cases h
      | some p =>
        rw [hr] at h
        simp only [Option.map_some', Option.some.injEq] at h
        subst h
        obtain ⟨h1, h2⟩ := rssFeed_spec L f.Rss p hr
        cases hp : p.2 with
        | none => exact Or.inl (by simp [hp])
        | some s => exact Or.inr (Or.inr ⟨s, f, rfl, by simp [hp], h2⟩)

/-- C1 witness: a fatal XML syntax error yields the zero `Feed`. -/
theorem read_error_cases_witness :
    exErrOut.2 = none ∨
    (∃ e, exErrOut.2 = some (ReadErr.xmlSyntax e) ∧ exErrOut.1 = Feed.zero) ∨
    (∃ s f, (Except.error "x".data : Except Str feed) = Except.ok f ∧
      exErrOut.2 = some (ReadErr.badTime s) ∧
      RssComplete trivLib f.Rss exErrOut.1) :=
  read_error_cases trivLib id (Except.error "x".data) exErrOut rfl

/-- C2: one RSS decode yields at most one `ErrBadTime`, namely the first
timestamp failure in traversal order (the feed-level `pubDate` before the
items, items in document order); every entry whose timestamp fails is
still fully populated, with its `When` field at the zero instant. -/
theorem rss_first_error {Node : Type} (L : HtmlLib Node) (r : rss)
    (out : Feed × Option Str) (h : rssFeed L r = some out) :
    out.2 = firstBad (r.Updated :: r.Items.map rssItem.Updated) ∧
    List.Forall₂ (EntryOfItem L) r.Items out.1.Entries ∧
    List.Forall₂ (fun it e => (rssTime it.Updated).2 ≠ none → e.When = GoTime.zero)
      r.Items out.1.Entries := by
  obtain ⟨h1, h2⟩ := rssFeed_spec L r out h
  refine ⟨h1, h2.2.2.2, ?_⟩
  refine List.Forall₂.imp ?_ h2.2.2.2
  intro it e he hf
  rw [he.2.2.2.2]
  exact rssTime_fail_zero _ hf

/-- C2 witness: two bad timestamps, the feed-level one wins; the entry is
still populated with `When` zero. -/
theorem rss_first_error_witness :
    rssFeed trivLib exRss = some exRssOut ∧
    (exRssOut.2 = firstBad (exRss.Updated :: exRss.Items.map rssItem.Updated) ∧
     List.Forall₂ (EntryOfItem trivLib) exRss.Items exRssOut.1.Entries ∧
     List.Forall₂ (fun it e => (rssTime it.Updated).2 ≠ none → e.When = GoTime.zero)
       exRss.Items exRssOut.1.Entries) :=
  ⟨by decide, rss_first_error trivLib exRss exRssOut (by decide)⟩

/-- C3: a decoded document all of whose timestamps are recognized yields a
nil error and one `Entry` per item/entry of the source record, in document
order. -/
theorem read_valid_times {Node : Type} (L : HtmlLib Node) (u : Str → Str)
    (f : feed) (out : Feed × Option ReadErr)
    (h : Read L u (Except.ok f) = some out) :
    (f.Rss.Title ≠ [] → (rssTime f.Rss.Updated).2 = none →
      (∀ it ∈ f.Rss.Items, (rssTime it.Updated).2 = none) →
      out.2 = none ∧ List.Forall₂ (EntryOfItem L) f.Rss.Items out.1.Entries) ∧
    (f.Rss.Title = [] →
      out.2 = none ∧ List.Forall₂ (EntryOfAtom L u) f.Entries out.1.Entries) := by
  simp only [Read] at h
  by_cases ht : f.Rss.Title = []
  · rw [if_neg (not_not_intro ht)] at h
    cases ha : atomFeed L u f with
    | none => rw [ha] at h; cases h
    | some F =>
      rw [ha] at h
      simp only [Option.map_some', Option.some.injEq] at h
      subst h
      exact ⟨fun hne => absurd ht hne,
        fun _ => ⟨rfl, (atomFeed_spec L u f F ha).2.2.2⟩⟩
  · rw [if_pos ht] at h
    cases hr : rssFeed L f.Rss with
    | none => rw [hr] at h; cases h
    | some p =>
      rw [hr] at h
      simp only [Option.map_some', Option.some.injEq] at h
      subst h
      obtain ⟨h1, h2⟩ := rssFeed_spec L f.Rss p hr
      refine ⟨fun _ hu hits => ⟨?_, h2.2.2.2⟩, fun he => absurd he ht⟩
      have hnone : firstBad (f.Rss.Updated :: f.Rss.Items.map rssItem.Updated)
          = none := by
        unfold firstBad
        rw [findSome?_cons_accErr, hu, findSome?_map,
          findSome?_eq_none_of _ _ hits]
        rfl
      simp [h1, hnone]

/-- C3 witness: a record with fully recognized timestamps decodes with a
nil error and one entry for its single item. -/
theorem read_valid_times_witness :
    Read trivLib id (Except.ok exGoodFeedRec) = some exGoodOut ∧
    (exGoodOut.2 = none ∧
     List.Forall₂ (EntryOfItem trivLib) exGoodFeedRec.Rss.Items
       exGoodOut.1.Entries) :=
  ⟨by decide,
   (read_valid_times trivLib id exGoodFeedRec exGoodOut (by decide)).1
     (by decide) (by decide) (by decide)⟩

/-- C4: `rssTime` equals the reference resolution rule: empty input gives
the zero instant with no error, otherwise the four patterns are tried in
their fixed order with the first match winning, and a total mismatch gives
the zero instant plus `ErrBadTime` carrying exactly the input; the two
concrete scenarios resolve as stated. -/
theorem rssTime_matches_ref :
    (∀ s, rssTime s = rssTimeRef s) ∧
    rssTime "Mon, 2 Jan 2006 15:04:05 -0700".data
      = (⟨2006, 1, 2, 15, 4, 5, -25200⟩, none) ∧
    timeParse fmt1 "02 January 2006".data = none ∧
    timeParse fmt2 "02 January 2006".data = none ∧
    timeParse fmt3 "02 January 2006".data = none ∧
    timeParse fmt4 "02 January 2006".data = some ⟨2006, 1, 2, 0, 0, 0, 0⟩ ∧
    rssTime "02 January 2006".data = (⟨2006, 1, 2, 0, 0, 0, 0⟩, none) ∧
    (∀ s, s ≠ [] → (∀ f ∈ rssTimeFormats, timeParse f s = none) →
      rssTime s = (GoTime.zero, some s)) := by
  refine ⟨?_, by decide, by decide, by decide, by decide, by decide, by decide, ?_⟩
  · intro s
    unfold rssTime rssTimeRef
    by_cases hse : s = []
    · rw [if_pos hse, if_pos hse]
    · rw [if_neg hse, if_neg hse]
      simp only [rssTimeFormats, tryFormats]
      cases timeParse fmt1 s with
      | some t => rfl
      | none =>
        cases timeParse fmt2 s with
        | some t => rfl
        | none =>
          cases timeParse fmt3 s with
          | some t => rfl
          | none =>
            cases timeParse fmt4 s with
            | some t => rfl
            | none => rfl
  · intro s hne hall
    unfold rssTime
    rw [if_neg hne, tryFormats_eq_none_of s rssTimeFormats hall]

/-- C4 witness: an unrecognizable non-empty string resolves to the zero
instant with `ErrBadTime` carrying exactly that string. -/
theorem rssTime_matches_ref_witness :
    rssTime "zz".data = (GoTime.zero, some "zz".data) :=
  rssTime_matches_ref.2.2.2.2.2.2.2 "zz".data (by decide) (by decide)

/-- C5: `fixHtml` always returns: on a parse failure, a render error, a
size-guard overflow, or a missing body marker it returns the
entity-escaped input; when rendering succeeds and both markers are found
it returns exactly the serialized bytes strictly between the first
`<body>` marker and the first `</body>` marker after it; only a
non-`ErrTooLarge` panic propagates as a defect, and a defect arises only
from such a panic. -/
theorem fixHtml_contract {Node : Type} (L : HtmlLib Node) (wild : Str) :
    (L.parse wild = none → fixHtml L wild = some (escapeString wild)) ∧
    (∀ n, L.parse wild = some n →
      (L.render n = RenderRes.err → fixHtml L wild = some (escapeString wild)) ∧
      (L.render n = RenderRes.tooLarge →
        fixHtml L wild = some (escapeString wild)) ∧
      (L.render n = RenderRes.otherPanic → fixHtml L wild = none) ∧
      (fixHtml L wild = none → L.render n = RenderRes.otherPanic) ∧
      (∀ well, L.render n = RenderRes.ok well →
        (firstIdx openBody well = none →
          fixHtml L wild = some (escapeString wild)) ∧
        (∀ i, firstIdx openBody well = some i →
          firstIdx closeBody (well.drop (i + openBody.length)) = none →
          fixHtml L wild = some (escapeString wild)) ∧
        (∀ pre frag post, BodySplit well pre frag post →
          fixHtml L wild = some frag))) := by
  constructor
  · intro hp
    simp [fixHtml, hp]
  · intro n hp
    refine ⟨?_, ?_, ?_, ?_, ?_⟩
    · intro hr; simp [fixHtml, hp, hr]
    · intro hr; simp [fixHtml, hp, hr]
    · intro hr; simp [fixHtml, hp, hr]
    · intro hnone
      cases hr : L.render n with
      | ok well => exact absurd hnone (fixHtml_ok_ne_none L wild n well hp hr)
      | err => simp [fixHtml, hp, hr] at hnone
      | tooLarge => simp [fixHtml, hp, hr] at hnone
      | otherPanic => rfl
    · intro well hr
      refine ⟨?_, ?_, ?_⟩
      · intro ho; simp [fixHtml, hp, hr, ho]
      · intro i ho hc; simp [fixHtml, hp, hr, ho, hc]
      · intro pre frag post hs
        exact fixHtml_of_split L wild n well pre frag post hp hr hs

/-- C5 witness: with a library rendering an empty body, repair of garbage
input returns the (empty) content between the markers. -/
theorem fixHtml_contract_witness : fixHtml trivLib "y".data = some [] :=
  (((fixHtml_contract trivLib "y".data).2 () rfl).2.2.2.2
      "<body></body>".data rfl).2.2 [] [] []
    ⟨rfl, fun j hj => absurd hj (Nat.not_lt_zero j),
      fun j hj => absurd hj (Nat.not_lt_zero j)⟩

/-- C9: Markup Repair is idempotent on well-formed fragments: when the
HTML library round-trips a fragment (rendering its parse as the fragment
wrapped in a standard document shell, with the markers located at the
shell), repair returns the fragment unchanged, so applying repair twice
equals applying it once. -/
theorem fixHtml_idem {Node : Type} (L : HtmlLib Node) (frag : Str) (n : Node)
    (hp : L.parse frag = some n)
    (hr : L.render n = RenderRes.ok (wrapDoc frag))
    (hs : BodySplit (wrapDoc frag) docPre frag docPost) :
    fixHtml L frag = some frag ∧
    (fixHtml L frag).bind (fixHtml L) = fixHtml L frag := by
  have h1 : fixHtml L frag = some frag :=
    fixHtml_of_split L frag n (wrapDoc frag) docPre frag docPost hp hr hs
  refine ⟨h1, ?_⟩
  rw [h1]
  exact h1

/-- C9 witness: repairing `<p>hello</p>` twice equals repairing it
once. -/
theorem fixHtml_idem_witness :
    fixHtml helloLib pHello = some pHello ∧
    (fixHtml helloLib pHello).bind (fixHtml helloLib)
      = fixHtml helloLib pHello :=
  fixHtml_idem helloLib pHello () rfl rfl ⟨rfl, by decide, by decide⟩

/-- C6 counterexample: an entry whose link elements are (no `rel`,
`href="B"`) then (`rel="self"`, `href="A"`) decodes `Entry.Link` to
`"A"`, not to the canonical (first unset-or-alternate) link `"B"`: the
claimed rule does not govern `Entry.Link`. -/
theorem entry_link_counterexample :
    (decodeEntryLink exLinks).Href = "A".data ∧
    canonicalLink (exLinks.map decodeAtomLink) = "B".data ∧
    (decodeEntryLink exLinks).Href ≠ canonicalLink (exLinks.map decodeAtomLink) :=
  ⟨by decide, by decide, by decide⟩

/-- C6 (amended): the first-unset-or-alternate rule governs `Feed.Link`
only; `Entry.Link` is decoded by attribute overwriting across repeated
link elements, so it is the `href` of the last link element carrying an
`href` attribute, regardless of `rel`. -/
theorem link_selection_amended :
    (∀ {Node : Type} (L : HtmlLib Node) (u : Str → Str) (a : feed) (F : Feed),
      atomFeed L u a = some F → F.Link = canonicalLink a.Links) ∧
    (∀ ls : List atomLinkElem, (decodeEntryLink ls).Href = lastHref ls) := by
  constructor
  · intro Node L u a F h
    rw [(atomFeed_spec L u a F h).2.1]
    exact linkSel_eq_canonical a.Links
  · intro ls
    show (ls.foldl mergeLinkAttrs ⟨[], []⟩).Href = lastHref ls
    rw [foldl_merge_href]
    rfl

/-- C6 amended witness: the feed-level link skips the `rel="self"` link
and picks the no-`rel` one. -/
theorem link_selection_amended_witness :
    atomFeed trivLib id exAtomFeedRec
      = some ⟨"at".data, "C".data, GoTime.zero, []⟩ ∧
    (⟨"at".data, "C".data, GoTime.zero, []⟩ : Feed).Link
      = canonicalLink exAtomFeedRec.Links :=
  ⟨by decide, link_selection_amended.1 trivLib id exAtomFeedRec _ (by decide)⟩

/-- C7: after a successful structural decode, the document is transformed
as RSS exactly when the RSS channel title field is non-empty, and as Atom
otherwise. -/
theorem read_dialect {Node : Type} (L : HtmlLib Node) (u : Str → Str)
    (f : feed) :
    (f.Rss.Title ≠ [] →
      Read L u (Except.ok f)
        = (rssFeed L f.Rss).map (fun p => (p.1, p.2.map ReadErr.badTime))) ∧
    (f.Rss.Title = [] →
      Read L u (Except.ok f) = (atomFeed L u f).map (fun F => (F, none))) := by
  constructor
  · intro hne
    simp only [Read]
    rw [if_pos hne]
  · intro he
    simp only [Read]
    rw [if_neg (not_not_intro he)]

/-- C7 witness: a record with a non-empty RSS channel title takes the RSS
transform. -/
theorem read_dialect_witness :
    Read trivLib id (Except.ok exGoodFeedRec)
      = (rssFeed trivLib exGoodFeedRec.Rss).map
          (fun p => (p.1, p.2.map ReadErr.badTime)) :=
  (read_dialect trivLib id exGoodFeedRec).1 (by decide)

/-- C8: when an Atom entry has content elements, only the first
contributes to `Entry.Content`; its raw bytes are entity-unescaped first
exactly when its declared type is not `xhtml`, then passed to Markup
Repair. -/
theorem atom_content_selection {Node : Type} (L : HtmlLib Node)
    (u : Str → Str) (a : atomEntry) (e : Entry)
    (h : atomEntryT L u a = some e)
    (c : atomContent) (rest : List atomContent) (hc : a.Content = c :: rest) :
    fixHtml L (if c.Typ = "xhtml".data then c.Contents else u c.Contents)
      = some e.Content := by
  have hspec := atomEntryT_spec L u a e h
  have hcont := hspec.2.2.2.2
  rw [hc] at hcont
  rw [← data_eq_if]
  exact hcont

/-- C8 witness: an entry with a non-xhtml first content element and an
xhtml second one takes the unescaped first. -/
theorem atom_content_selection_witness :
    atomEntryT trivLib id exAtomEntry = some exE ∧
    fixHtml trivLib (if exC.Typ = "xhtml".data then exC.Contents
      else id exC.Contents) = some exE.Content :=
  ⟨by decide,
   atom_content_selection trivLib id exAtomEntry exE (by decide)
     exC [⟨"xhtml".data, "dd".data⟩] (by decide)⟩

/-- C10: a document classified as Atom (empty RSS channel title) decodes
with a nil error: the Atom transform never produces the `ErrBadTime`
advisory. -/
theorem atom_no_bad_time {Node : Type} (L : HtmlLib Node) (u : Str → Str)
    (f : feed) (out : Feed × Option ReadErr) (he : f.Rss.Title = [])
    (h : Read L u (Except.ok f) = some out) : out.2 = none := by
  simp only [Read] at h
  rw [if_neg (not_not_intro he)] at h
  cases ha : atomFeed L u f with
  | none => rw [ha] at h; cases h
  | some F =>
    rw [ha] at h
    simp only [Option.map_some', Option.some.injEq] at h
    subst h
    rfl

/-- C10 witness: a concrete Atom document decodes with a nil error. -/
theorem atom_no_bad_time_witness : exAtomOut.2 = none :=
  atom_no_bad_time trivLib id exAtomDoc exAtomOut (by decide) (by decide)

end Webfeed
